import Mathlib

/-!
Verification of the insurance-plan comparison app (`src/app.py`).

The development shallowly embeds the pieces of the program the claims are
about:

* the parsed-JSON value shape (`JValue`) together with models of the Python
  operations the renderer applies to it (`in`, subscription, `len`, `str`),
  where operations that can raise a Python exception return `Except`;
* the response-field extraction chain of lines 122-131 (`parsed_message`);
* the Markdown escaping chain of lines 135-148 (`escaped_message`);
* the plan store loader of lines 11-25 (`load_data`), over an explicit
  filesystem valuation;
* the prompt builder of lines 47-58 (`selected_plans`, `concatenated_details`,
  `jambaPrompt`) and the surrounding query/display pipeline
  (`run_jamba_query`, `render_response`, `jamba_display`, `compare_submit`);
* models of `json.dumps` / `json.loads` (`json_dumps`, `json_loads`), with a
  proved round-trip theorem.  The serializer follows CPython with integer
  numbers (floating point is out of scope) and byte-for-byte output using the
  default separators; the parser is a fueled recursive-descent reader of the
  same JSON fragment.

Strings are modelled as `List Char` wherever character-level reasoning is
needed; `String` is used at the component boundaries.
-/

mutual

/-- Shape of a value produced by parsing JSON: strings, integer numbers,
booleans, null, arrays and objects.  (Python also parses floating-point
numbers; no claim depends on them and they are out of scope.)  Arrays and
objects are given by the mutually defined `JArr` / `JObj` so that all
recursion below is plain structural recursion. -/
inductive JValue where
  | jstr (s : String)
  | jnum (n : Int)
  | jbool (b : Bool)
  | jnull
  | jarr (xs : JArr)
  | jobj (fs : JObj)

/-- A JSON array: a list of `JValue`s. -/
inductive JArr where
  | nil
  | cons (hd : JValue) (tl : JArr)

/-- A JSON object: an insertion-ordered association list from string keys to
`JValue`s (Python `dict` preserves insertion order; parsed JSON objects have
unique keys). -/
inductive JObj where
  | nil
  | cons (k : String) (v : JValue) (tl : JObj)

end

mutual

/-- Python `repr` of a parsed-JSON value: single-quoted strings,
`True` / `False` / `None`, `[..]` lists and `\x7b'k': v\x7d` dicts.
(Quote characters inside strings would be escaped by CPython; the claims
never exercise that corner and it is not modelled.) -/
def pyRepr : JValue → String
  | .jstr s => "'" ++ s ++ "'"
  | .jnum n => toString n
  | .jbool b => if b then "True" else "False"
  | .jnull => "None"
  | .jarr xs => "[" ++ pyReprArr xs ++ "]"
  | .jobj fs => "\x7b" ++ pyReprObj fs ++ "\x7d"

/-- Comma-separated `repr` of array elements. -/
def pyReprArr : JArr → String
  | .nil => ""
  | .cons x .nil => pyRepr x
  | .cons x tl => pyRepr x ++ ", " ++ pyReprArr tl

/-- Comma-separated `repr` of object members. -/
def pyReprObj : JObj → String
  | .nil => ""
  | .cons k v .nil => "'" ++ k ++ "': " ++ pyRepr v
  | .cons k v tl => "'" ++ k ++ "': " ++ pyRepr v ++ ", " ++ pyReprObj tl

end

/-- Python `str` of a parsed-JSON value: the identity on strings, `repr`
otherwise. -/
def pyStr (v : JValue) : String :=
  match v with
  | .jstr s => s
  | _ => pyRepr v

/-- First binding of key `k` in an object (parsed JSON objects have unique
keys, so this is Python `dict` lookup). -/
def lookupKey : JObj → String → Option JValue
  | .nil, _ => none
  | .cons k v tl, key => if k = key then some v else lookupKey tl key

/-- Does some element of the array equal the string `k`?  (Python `==`
between a `str` and a non-`str` JSON value is `False`.) -/
def arrHasString : JArr → String → Bool
  | .nil, _ => false
  | .cons (.jstr s) tl, k => s = k || arrHasString tl k
  | .cons _ tl, k => arrHasString tl k

/-- Number of members of an object. -/
def objLen : JObj → Nat
  | .nil => 0
  | .cons _ _ tl => 1 + objLen tl

/-- Number of elements of an array. -/
def arrLen : JArr → Nat
  | .nil => 0
  | .cons _ tl => 1 + arrLen tl

/-- Does the character list start with the pattern `pat`? -/
def startsWithChars : List Char → List Char → Bool
  | _, [] => true
  | [], _ :: _ => false
  | c :: cs, p :: ps => p = c && startsWithChars cs ps

/-- Is `pat` a contiguous sublist of the character list? -/
def hasSubChars (pat : List Char) : List Char → Bool
  | [] => pat.isEmpty
  | c :: cs => startsWithChars (c :: cs) pat || hasSubChars pat cs

/-- Is the string `pat` a contiguous substring of `s`? -/
def strHasSub (s pat : String) : Bool :=
  hasSubChars pat.data s.data

/-- Python `k in v` for a string `k`: key test on dicts, element test on
lists, substring test on strings, `TypeError` on numbers, booleans and
`None`. -/
def pyContains (k : String) (v : JValue) : Except String Bool :=
  match v with
  | .jobj fs => .ok (lookupKey fs k).isSome
  | .jarr xs => .ok (arrHasString xs k)
  | .jstr s => .ok (strHasSub s k)
  | _ => .error "TypeError"

/-- Python `v[k]` for a string `k`: dict lookup (`KeyError` when absent),
`TypeError` on every other value. -/
def pySubscript (v : JValue) (k : String) : Except String JValue :=
  match v with
  | .jobj fs =>
    match lookupKey fs k with
    | some w => .ok w
    | none => .error "KeyError"
  | _ => .error "TypeError"

/-- Python `len(v)`: length of strings, lists and dicts, `TypeError`
otherwise. -/
def pyLen (v : JValue) : Except String Nat :=
  match v with
  | .jstr s => .ok s.length
  | .jarr xs => .ok (arrLen xs)
  | .jobj fs => .ok (objLen fs)
  | _ => .error "TypeError"

/-- Python `v[0]`: head of a list (`IndexError` when empty), the first
character of a string as a one-character string, `KeyError` on dicts (parsed
JSON objects have no integer keys), `TypeError` otherwise. -/
def pyIndexZero (v : JValue) : Except String JValue :=
  match v with
  | .jarr (.cons x _) => .ok x
  | .jarr .nil => .error "IndexError"
  | .jstr s =>
    match s.data with
    | [] => .error "IndexError"
    | c :: _ => .ok (.jstr (String.mk [c]))
  | .jobj _ => .error "KeyError"
  | _ => .error "TypeError"

/-- Lines 122-131 of `src/app.py`: extract the message from the parsed
response.  `if 'choices' in parsed_response and len(parsed_response['choices']) > 0:`
then `choice = parsed_response['choices'][0]`, then the key chain
`'messages'`, `'mesages'`, `str(choice)`; otherwise `str(parsed_response)`.
An `.error` result models an uncaught Python exception. -/
def parsed_message (parsed : JValue) : Except String JValue := do
  let hasChoices ← pyContains "choices" parsed
  let cond ←
    if hasChoices then do
      let cs ← pySubscript parsed "choices"
      let n ← pyLen cs
      pure (decide (0 < n))
    else
      pure false
  if cond then do
    let cs ← pySubscript parsed "choices"
    let choice ← pyIndexZero cs
    let hasMessages ← pyContains "messages" choice
    if hasMessages then
      pySubscript choice "messages"
    else do
      let hasMesages ← pyContains "mesages" choice
      if hasMesages then
        pySubscript choice "mesages"
      else
        pure (.jstr (pyStr choice))
  else
    pure (.jstr (pyStr parsed))

/-- The twelve characters escaped by lines 135-148 of `src/app.py`, in the
order the `replace` calls are applied. -/
def mdSpecials : List Char := ['$', '*', '_', '[', ']', '(', ')', '#', '+', '-', '.', '!']

/-- Python `text.replace(c, new)` for a one-character needle `c`: every
occurrence of `c` is replaced by `new` (single-character occurrences cannot
overlap, so `str.replace` is exactly this character-wise substitution). -/
def replaceChar (c : Char) (new : List Char) : List Char → List Char
  | [] => []
  | x :: xs => (if x = c then new else [x]) ++ replaceChar c new xs

/-- Lines 135-148 of `src/app.py`: the chained `replace` calls, applied in
source order (`$` first, `!` last), each prefixing a backslash. -/
def escaped_message (m : List Char) : List Char :=
  replaceChar '!' ['\\', '!']
    (replaceChar '.' ['\\', '.']
      (replaceChar '-' ['\\', '-']
        (replaceChar '+' ['\\', '+']
          (replaceChar '#' ['\\', '#']
            (replaceChar ')' ['\\', ')']
              (replaceChar '(' ['\\', '(']
                (replaceChar ']' ['\\', ']']
                  (replaceChar '[' ['\\', '[']
                    (replaceChar '_' ['\\', '_']
                      (replaceChar '*' ['\\', '*']
                        (replaceChar '$' ['\\', '$'] m)))))))))))

/-- Per-character escaping as the spec describes it: a special character
becomes backslash-then-the-character, every other character is kept
unchanged. -/
def escChar (c : Char) : List Char :=
  if c ∈ mdSpecials then ['\\', c] else [c]

/-- Whole-string escaping as the spec describes it: each source character is
escaped independently, in place. -/
def escapeSpec : List Char → List Char
  | [] => []
  | c :: cs => escChar c ++ escapeSpec cs

theorem replaceChar_append (c : Char) (new a b : List Char) :
    replaceChar c new (a ++ b) = replaceChar c new a ++ replaceChar c new b := by
  induction a with
  | nil => rfl
  | cons x xs ih => simp [replaceChar, ih]

theorem escaped_message_append (a b : List Char) :
    escaped_message (a ++ b) = escaped_message a ++ escaped_message b := by
  simp [escaped_message, replaceChar_append]

theorem escaped_message_single (x : Char) : escaped_message [x] = escChar x := by
  by_cases h : x ∈ mdSpecials
  · fin_cases h <;> rfl
  · simp only [mdSpecials, List.mem_cons, List.not_mem_nil, or_false, not_or] at h
    obtain ⟨h1, h2, h3, h4, h5, h6, h7, h8, h9, h10, h11, h12⟩ := h
    simp [escaped_message, replaceChar, escChar, mdSpecials,
      h1, h2, h3, h4, h5, h6, h7, h8, h9, h10, h11, h12]

/-- C1: on every input, the chained left-to-right `replace` pass of lines
135-148 equals the one-shot per-character escaping `escapeSpec`: every source
occurrence of one of the twelve special characters comes out as exactly one
inserted backslash followed by that character, every other source character
(including pre-existing backslashes) is reproduced unchanged, and the
backslashes inserted by earlier `replace` calls are never escaped again by
later ones. -/
theorem escaped_message_total (s : List Char) : escaped_message s = escapeSpec s := by
  induction s with
  | nil => rfl
  | cons x xs ih =>
    have hx : x :: xs = [x] ++ xs := rfl
    rw [hx, escaped_message_append, escaped_message_single, ih]
    rfl

/-- Python `plans_data[name]` over the plan store modelled as an
insertion-ordered association list with unique keys. -/
def lookupPlan : List (String × String) → String → Option String
  | [], _ => none
  | (k, v) :: tl, n => if k = n then some v else lookupPlan tl n

/-- Keys in order of first occurrence, later duplicates removed: the key
order of a Python dict built by inserting the list's elements in order. -/
def firstDedup : List String → List String
  | [] => []
  | x :: xs => x :: firstDedup (xs.filter (fun y => y ≠ x))
termination_by l => l.length
decreasing_by
  simp only [List.length_cons]
  exact Nat.lt_succ_of_le (List.length_filter_le _ _)

/-- Line 47 of `src/app.py`:
`\x7bname: plans_data[name] for name in plan_names if name in plans_data\x7d`.
Names missing from the store are filtered out; the dict keeps first-insertion
key order, and since the value bound to a key depends only on the key,
duplicate selections collapse to the first occurrence. -/
def selected_plans (store : List (String × String)) (plan_names : List String) :
    List (String × String) :=
  (firstDedup (plan_names.filter (fun n => (lookupPlan store n).isSome))).map
    (fun n => (n, (lookupPlan store n).getD ""))

/-- The f-string `<plan name="{name}">{details}</plan>` of line 51. -/
def planSegment (p : String × String) : String :=
  "<plan name=\"" ++ p.1 ++ "\">" ++ p.2 ++ "</plan>"

/-- Lines 50-53 of `src/app.py`: the plan segments joined by single spaces. -/
def concatenated_details (store : List (String × String)) (plan_names : List String) :
    String :=
  String.intercalate " " ((selected_plans store plan_names).map planSegment)

/-- Line 58 of `src/app.py`: the user-role message content
`f'\x7bquestion\x7d \x7bconcatenated_details\x7d'`. -/
def jambaPrompt (store : List (String × String)) (question : String)
    (plan_names : List String) : String :=
  question ++ " " ++ concatenated_details store plan_names

theorem firstDedup_of_nodup : ∀ l : List String, l.Nodup → firstDedup l = l := by
  intro l
  induction l with
  | nil => intro _; rw [firstDedup]
  | cons x xs ih =>
    intro h
    rw [List.nodup_cons] at h
    have hfil : xs.filter (fun y => y ≠ x) = xs := by
      rw [List.filter_eq_self]
      intro a ha
      simp only [ne_eq, decide_eq_true_eq]
      intro hax
      exact h.1 (hax ▸ ha)
    rw [firstDedup, hfil, ih h.2]

/-- C2: for every question and every non-empty selection of one or two
distinct plan names all present in the store, the built user prompt is the
question, one space, then the `<plan name="..">..</plan>` segments — one per
selected name, in selection order, each wrapping that name's stored text —
joined by single spaces; in particular the prompt extends the question text. -/
theorem jambaPrompt_build (store : List (String × String)) (question : String)
    (names : List String) (hne : names ≠ []) (hlen : names.length ≤ 2)
    (hnd : names.Nodup)
    (hmem : ∀ n ∈ names, (lookupPlan store n).isSome = true) :
    jambaPrompt store question names =
      question ++ " " ++ String.intercalate " "
        (names.map (fun n =>
          "<plan name=\"" ++ n ++ "\">" ++ (lookupPlan store n).getD "" ++ "</plan>"))
    ∧ ∃ tail, jambaPrompt store question names = question ++ tail := by
  have hfil : names.filter (fun n => (lookupPlan store n).isSome) = names := by
    rw [List.filter_eq_self]
    intro a ha
    exact hmem a ha
  have hsel : selected_plans store names =
      names.map (fun n => (n, (lookupPlan store n).getD "")) := by
    unfold selected_plans
    rw [hfil, firstDedup_of_nodup _ hnd]
  constructor
  · unfold jambaPrompt concatenated_details
    rw [hsel, List.map_map]
    rfl
  · exact ⟨" " ++ concatenated_details store names, by
      unfold jambaPrompt
      rw [String.append_assoc]⟩

theorem jambaPrompt_build_witness :
    jambaPrompt [("A", "ta"), ("B", "tb")] "Q?" ["A", "B"] =
      "Q? <plan name=\"A\">ta</plan> <plan name=\"B\">tb</plan>" := by
  have h := (jambaPrompt_build [("A", "ta"), ("B", "tb")] "Q?" ["A", "B"]
    (by decide) (by decide) (by decide) (by decide)).1
  rw [h]
  rfl

/-- C6: selected names that are not keys of the plan store are silently
dropped: the built prompt equals the prompt built from only the names found
in the store, and the selected pairs are keyed exactly by the found names (in
first-occurrence order).  The model is a total function because line 47
guards every `plans_data[name]` access with `if name in plans_data`, so no
`KeyError` can be raised. -/
theorem unknown_names_dropped (store : List (String × String)) (question : String)
    (names : List String) :
    jambaPrompt store question names =
      jambaPrompt store question
        (names.filter (fun n => (lookupPlan store n).isSome))
    ∧ (selected_plans store names).map Prod.fst =
      firstDedup (names.filter (fun n => (lookupPlan store n).isSome)) := by
  constructor
  · have hff : (names.filter (fun n => (lookupPlan store n).isSome)).filter
        (fun n => (lookupPlan store n).isSome) =
        names.filter (fun n => (lookupPlan store n).isSome) :=
      List.filter_eq_self.mpr (fun a ha => (List.mem_filter.mp ha).2)
    unfold jambaPrompt concatenated_details selected_plans
    rw [hff]
  · unfold selected_plans
    rw [List.map_map]
    exact List.map_id _

/-- The fixed filename list of lines 15-21 of `src/app.py`. -/
def planFilenames : List String :=
  ["HMO Blue Copayment.txt",
   "HMO Blue New England Basic Saver.txt",
   "HMO Blue Saver.txt",
   "HMO Blue Select $2000 Deductible with Copayment.txt",
   "Preferred Blue PPO $4500 Deductible.txt"]

/-- Line 13 of `src/app.py`: `data_folder = 'data'`. -/
def data_folder : String := "data"

/-- `os.path.join` for the relative paths used here. -/
def joinPath (d f : String) : String := d ++ "/" ++ f

/-- Drop the final `.ext` from a filename, as `os.path.splitext(f)[0]` does
for the filenames in use (one interior dot at most, no leading dot). -/
def stemChars (l : List Char) : List Char :=
  match l.reverse.dropWhile (fun c => c ≠ '.') with
  | [] => l
  | _ :: rest => rest.reverse

/-- Line 22 of `src/app.py`: `plan_name = os.path.splitext(filename)[0]`. -/
def splitextStem (s : String) : String := String.mk (stemChars s.data)

/-- The loading loop of lines 14-25, over an explicit filesystem valuation
`fs : path → Option contents`.  A missing or unreadable file raises (models
the uncaught `open` failure): the whole load errors with that path and no
partial mapping is produced. -/
def load_data_go (fs : String → Option String) : List String → Except String (List (String × String))
  | [] => .ok []
  | f :: rest =>
    match fs (joinPath data_folder f) with
    | none => .error (joinPath data_folder f)
    | some txt =>
      match load_data_go fs rest with
      | .error e => .error e
      | .ok ps => .ok ((splitextStem f, txt) :: ps)

/-- Lines 11-25 of `src/app.py`: `load_data` over the fixed filename list. -/
def load_data (fs : String → Option String) : Except String (List (String × String)) :=
  load_data_go fs planFilenames

theorem load_data_go_ok (fs : String → Option String) :
    ∀ L : List String, (∀ f ∈ L, (fs (joinPath data_folder f)).isSome = true) →
      load_data_go fs L =
        .ok (L.map (fun f => (splitextStem f, (fs (joinPath data_folder f)).getD ""))) := by
  intro L
  induction L with
  | nil => intro _; rfl
  | cons f rest ih =>
    intro h
    have hf := h f (List.mem_cons_self f rest)
    obtain ⟨txt, htxt⟩ := Option.isSome_iff_exists.mp hf
    rw [load_data_go, htxt, ih (fun g hg => h g (List.mem_cons_of_mem f hg))]
    simp [htxt]

theorem load_data_go_err (fs : String → Option String) :
    ∀ L : List String, (∃ f ∈ L, fs (joinPath data_folder f) = none) →
      ∃ e, load_data_go fs L = .error e := by
  intro L
  induction L with
  | nil => rintro ⟨f, hf, _⟩; exact absurd hf (List.not_mem_nil f)
  | cons f rest ih =>
    rintro ⟨g, hg, hgnone⟩
    rcases List.mem_cons.mp hg with rfl | hgrest
    · exact ⟨joinPath data_folder g, by rw [load_data_go, hgnone]⟩
    · match hfs : fs (joinPath data_folder f) with
      | none => exact ⟨joinPath data_folder f, by rw [load_data_go, hfs]⟩
      | some txt =>
        obtain ⟨e, he⟩ := ih ⟨g, hgrest, hgnone⟩
        exact ⟨e, by rw [load_data_go, hfs, he]⟩

/-- C8: `load_data` over a filesystem holding all five files returns the
association list keyed exactly by the extension-stripped stems of the five
hard-coded filenames, in order, each mapped to that file's contents verbatim;
if any of the five paths is absent the load fails with an error and no
partial mapping escapes; and the five stems are the filenames without their
`.txt` extension. -/
theorem load_data_spec (fs : String → Option String) :
    ((∀ f ∈ planFilenames, (fs (joinPath data_folder f)).isSome = true) →
      load_data fs = .ok (planFilenames.map
        (fun f => (splitextStem f, (fs (joinPath data_folder f)).getD ""))))
    ∧ ((∃ f ∈ planFilenames, fs (joinPath data_folder f) = none) →
      ∃ e, load_data fs = .error e)
    ∧ planFilenames.map splitextStem =
      ["HMO Blue Copayment", "HMO Blue New England Basic Saver", "HMO Blue Saver",
       "HMO Blue Select $2000 Deductible with Copayment",
       "Preferred Blue PPO $4500 Deductible"] := by
  refine ⟨fun h => load_data_go_ok fs planFilenames h,
          fun h => load_data_go_err fs planFilenames h, ?_⟩
  rfl

/-- A concrete five-file filesystem used to witness `load_data_spec`. -/
def fsWitness : String → Option String := fun p =>
  if p = "data/HMO Blue Copayment.txt" then some "t1"
  else if p = "data/HMO Blue New England Basic Saver.txt" then some "t2"
  else if p = "data/HMO Blue Saver.txt" then some "t3"
  else if p = "data/HMO Blue Select $2000 Deductible with Copayment.txt" then some "t4"
  else if p = "data/Preferred Blue PPO $4500 Deductible.txt" then some "t5"
  else none

theorem load_data_spec_witness :
    load_data fsWitness =
      .ok [("HMO Blue Copayment", "t1"), ("HMO Blue New England Basic Saver", "t2"),
           ("HMO Blue Saver", "t3"),
           ("HMO Blue Select $2000 Deductible with Copayment", "t4"),
           ("Preferred Blue PPO $4500 Deductible", "t5")]
    ∧ ∃ e, load_data (fun _ => none) = .error e := by
  constructor
  · have h := (load_data_spec fsWitness).1 (by decide)
    rw [h]
    rfl
  · exact (load_data_spec (fun _ => none)).2.1 ⟨"HMO Blue Copayment.txt", by decide, rfl⟩

/-- Is the character an ASCII decimal digit? -/
def isDigitChar (c : Char) : Bool := 48 ≤ c.toNat && c.toNat ≤ 57

/-- The ASCII digit character for `d < 10`. -/
def digitChar (d : Nat) : Char := Char.ofNat (48 + d)

/-- Decimal digits of `n`, most significant first, prepended to `acc`. -/
def natDigitsGo (n : Nat) (acc : List Char) : List Char :=
  if n < 10 then digitChar n :: acc
  else natDigitsGo (n / 10) (digitChar (n % 10) :: acc)
termination_by n
decreasing_by exact Nat.div_lt_self (by omega) (by omega)

/-- Decimal digits of `n`, most significant first, no leading zeros. -/
def natDigits (n : Nat) : List Char := natDigitsGo n []

/-- Decimal representation of an integer, as CPython prints it. -/
def intChars (n : Int) : List Char :=
  if n < 0 then '-' :: natDigits n.natAbs else natDigits n.natAbs

/-- Lower-case hex digit character for `d < 16`. -/
def hexDigitChar (d : Nat) : Char :=
  if d < 10 then Char.ofNat (48 + d) else Char.ofNat (87 + d)

/-- `json.dumps` escaping of one character inside a string literal (CPython
with `ensure_ascii=False`): `"`, `\` and the control characters below 0x20
are escaped, everything else passes through.  (The default
`ensure_ascii=True` additionally escapes non-ASCII characters; that choice
affects neither non-emptiness nor parseability and is not modelled.) -/
def escJChar (c : Char) : List Char :=
  if c = '"' then ['\\', '"']
  else if c = '\\' then ['\\', '\\']
  else if c = '\n' then ['\\', 'n']
  else if c = '\t' then ['\\', 't']
  else if c = '\r' then ['\\', 'r']
  else if c = Char.ofNat 8 then ['\\', 'b']
  else if c = Char.ofNat 12 then ['\\', 'f']
  else if c.toNat < 32 then
    ['\\', 'u', '0', '0', hexDigitChar (c.toNat / 16), hexDigitChar (c.toNat % 16)]
  else [c]

/-- `json.dumps` escaping of a whole string body. -/
def escJ : List Char → List Char
  | [] => []
  | c :: cs => escJChar c ++ escJ cs

/-- A serialized JSON string literal: quote, escaped body, quote. -/
def dumpString (s : String) : List Char := '"' :: (escJ s.data ++ ['"'])

mutual

/-- `json.dumps` of a value, with CPython's default separators
(`', '` and `': '`). -/
def json_dumps_val : JValue → List Char
  | .jstr s => dumpString s
  | .jnum n => intChars n
  | .jbool true => ['t', 'r', 'u', 'e']
  | .jbool false => ['f', 'a', 'l', 's', 'e']
  | .jnull => ['n', 'u', 'l', 'l']
  | .jarr xs => '[' :: (dumpsArr xs ++ [']'])
  | .jobj fs => '\x7b' :: (dumpsObj fs ++ ['\x7d'])

/-- Array elements joined by `', '`. -/
def dumpsArr : JArr → List Char
  | .nil => []
  | .cons x .nil => json_dumps_val x
  | .cons x tl => json_dumps_val x ++ ',' :: ' ' :: dumpsArr tl

/-- Object members `"key": value` joined by `', '`. -/
def dumpsObj : JObj → List Char
  | .nil => []
  | .cons k v .nil => dumpString k ++ ':' :: ' ' :: json_dumps_val v
  | .cons k v tl =>
    dumpString k ++ ':' :: ' ' :: json_dumps_val v ++ ',' :: ' ' :: dumpsObj tl

end

/-- Line 69 of `src/app.py`: `json.dumps(response.dict())` as a `String`. -/
def json_dumps (v : JValue) : String := String.mk (json_dumps_val v)

/-- JSON whitespace (space, tab, newline, carriage return). -/
def isWsChar (c : Char) : Bool :=
  c.toNat = 32 || c.toNat = 9 || c.toNat = 10 || c.toNat = 13

/-- Drop leading JSON whitespace. -/
def skipWs (l : List Char) : List Char := l.dropWhile isWsChar

/-- Value of a hex digit character, if it is one. -/
def hexVal (c : Char) : Option Nat :=
  if 48 ≤ c.toNat && c.toNat ≤ 57 then some (c.toNat - 48)
  else if 97 ≤ c.toNat && c.toNat ≤ 102 then some (c.toNat - 87)
  else if 65 ≤ c.toNat && c.toNat ≤ 70 then some (c.toNat - 55)
  else none

/-- Decode a short JSON string escape (`\"` `\\` `\/` `\n` `\t` `\r` `\b`
`\f`). -/
def escDecode (e : Char) : Option Char :=
  if e = '"' then some '"'
  else if e = '\\' then some '\\'
  else if e = '/' then some '/'
  else if e = 'n' then some '\n'
  else if e = 't' then some '\t'
  else if e = 'r' then some '\r'
  else if e = 'b' then some (Char.ofNat 8)
  else if e = 'f' then some (Char.ofNat 12)
  else none

/-- Read a JSON string body after the opening quote, returning the decoded
characters and the input after the closing quote.  (Surrogate-pair `\u`
escapes denote code points outside this model and are rejected.) -/
def parseStringBody : List Char → Except String (List Char × List Char)
  | [] => .error "unterminated string"
  | c :: rest =>
    if c = '"' then .ok ([], rest)
    else if c = '\\' then
      match rest with
      | [] => .error "unterminated string escape"
      | e :: rest2 =>
        if e = 'u' then
          match rest2 with
          | a :: b :: c2 :: d :: rest3 =>
            match hexVal a, hexVal b, hexVal c2, hexVal d with
            | some ha, some hb, some hc, some hd =>
              if 55296 ≤ 4096 * ha + 256 * hb + 16 * hc + hd &&
                  4096 * ha + 256 * hb + 16 * hc + hd ≤ 57343 then
                .error "surrogate escapes not modelled"
              else
                match parseStringBody rest3 with
                | .ok (cs, r) => .ok (Char.ofNat (4096 * ha + 256 * hb + 16 * hc + hd) :: cs, r)
                | .error msg => .error msg
            | _, _, _, _ => .error "invalid unicode escape"
          | _ => .error "invalid unicode escape"
        else
          match escDecode e with
          | none => .error "invalid escape"
          | some ch =>
            match parseStringBody rest2 with
            | .ok (cs, r) => .ok (ch :: cs, r)
            | .error msg => .error msg
    else if c.toNat < 32 then .error "control character in string"
    else
      match parseStringBody rest with
      | .ok (cs, r) => .ok (c :: cs, r)
      | .error msg => .error msg

/-- Value of a digit string, most significant digit first. -/
def digitsVal (ds : List Char) : Nat := ds.foldl (fun a c => a * 10 + (c.toNat - 48)) 0

/-- Read a run of decimal digits from the front of the input. -/
def parseNatChars (l : List Char) : Except String (Nat × List Char) :=
  match l.takeWhile isDigitChar with
  | [] => .error "invalid number"
  | ds => .ok (digitsVal ds, l.dropWhile isDigitChar)

mutual

/-- Fueled recursive-descent reader for one JSON value (integer numbers;
floating point is out of scope).  The fuel only bounds nesting and never
runs out when it is at least `nvFuel` of the value read. -/
def parseValue : Nat → List Char → Except String (JValue × List Char)
  | 0, _ => .error "fuel exhausted"
  | fuel + 1, l =>
    match skipWs l with
    | [] => .error "expecting value"
    | c :: r =>
      if c = '\x7b' then
        match parseMembers fuel r with
        | .ok (fs, r2) => .ok (.jobj fs, r2)
        | .error e => .error e
      else if c = '[' then
        match parseItems fuel r with
        | .ok (xs, r2) => .ok (.jarr xs, r2)
        | .error e => .error e
      else if c = '"' then
        match parseStringBody r with
        | .ok (cs, r2) => .ok (.jstr (String.mk cs), r2)
        | .error e => .error e
      else if c = 't' then
        match r with
        | 'r' :: 'u' :: 'e' :: r2 => .ok (.jbool true, r2)
        | _ => .error "expecting value"
      else if c = 'f' then
        match r with
        | 'a' :: 'l' :: 's' :: 'e' :: r2 => .ok (.jbool false, r2)
        | _ => .error "expecting value"
      else if c = 'n' then
        match r with
        | 'u' :: 'l' :: 'l' :: r2 => .ok (.jnull, r2)
        | _ => .error "expecting value"
      else if c = '-' then
        match parseNatChars r with
        | .ok (n, r2) => .ok (.jnum (-(n : Int)), r2)
        | .error e => .error e
      else if isDigitChar c then
        match parseNatChars (c :: r) with
        | .ok (n, r2) => .ok (.jnum (n : Int), r2)
        | .error e => .error e
      else .error "expecting value"

/-- Read the elements of an array after the opening bracket. -/
def parseItems : Nat → List Char → Except String (JArr × List Char)
  | 0, _ => .error "fuel exhausted"
  | fuel + 1, l =>
    match skipWs l with
    | [] => .error "expecting value or close bracket"
    | c :: r =>
      if c = ']' then .ok (.nil, r)
      else
        match parseValue fuel (c :: r) with
        | .error e => .error e
        | .ok (v, r2) =>
          match skipWs r2 with
          | ',' :: r3 =>
            match parseItems fuel r3 with
            | .ok (.nil, _) => .error "trailing comma"
            | .ok (xs, r4) => .ok (.cons v xs, r4)
            | .error e => .error e
          | ']' :: r3 => .ok (.cons v .nil, r3)
          | _ => .error "expecting comma or close bracket"

/-- Read the members of an object after the opening brace. -/
def parseMembers : Nat → List Char → Except String (JObj × List Char)
  | 0, _ => .error "fuel exhausted"
  | fuel + 1, l =>
    match skipWs l with
    | [] => .error "expecting property name"
    | c :: r =>
      if c = '\x7d' then .ok (.nil, r)
      else if c = '"' then
        match parseStringBody r with
        | .error e => .error e
        | .ok (kcs, r1) =>
          match skipWs r1 with
          | ':' :: r2 =>
            match parseValue fuel r2 with
            | .error e => .error e
            | .ok (v, r3) =>
              match skipWs r3 with
              | ',' :: r4 =>
                match parseMembers fuel r4 with
                | .ok (.nil, _) => .error "trailing comma"
                | .ok (fs, r5) => .ok (.cons (String.mk kcs) v fs, r5)
                | .error e => .error e
              | '\x7d' :: r4 => .ok (.cons (String.mk kcs) v .nil, r4)
              | _ => .error "expecting comma or close brace"
          | _ => .error "expecting colon"
      else .error "expecting property name"

end

/-- `json.loads` over a character list: read one value with enough fuel,
then require only trailing whitespace. -/
def json_loads_chars (l : List Char) : Except String JValue :=
  match parseValue (l.length + 1) l with
  | .error e => .error e
  | .ok (v, rest) =>
    if (skipWs rest).isEmpty then .ok v else .error "extra data"

/-- Line 119 of `src/app.py`: `json.loads(jamba_response)` (restricted to
the integer-number JSON fragment; floating point is out of scope). -/
def json_loads (s : String) : Except String JValue := json_loads_chars s.data

mutual

/-- Fuel sufficient for `parseValue` to read the serialized form of a
value. -/
def nvFuel : JValue → Nat
  | .jarr xs => 1 + naFuel xs
  | .jobj fs => 1 + noFuel fs
  | _ => 1

/-- Fuel sufficient for `parseItems` on serialized array elements. -/
def naFuel : JArr → Nat
  | .nil => 1
  | .cons x tl => 1 + max (nvFuel x) (naFuel tl)

/-- Fuel sufficient for `parseMembers` on serialized object members. -/
def noFuel : JObj → Nat
  | .nil => 1
  | .cons _ v tl => 1 + max (nvFuel v) (noFuel tl)

end

theorem hexVal_hexDigitChar : ∀ d < 16, hexVal (hexDigitChar d) = some d := by decide

theorem parseStringBody_u00 (hi lo : Nat) (hhi : hi < 2) (hlo : lo < 16) (L : List Char) :
    parseStringBody ('\\' :: 'u' :: '0' :: '0' :: hexDigitChar hi :: hexDigitChar lo :: L) =
    match parseStringBody L with
    | .ok (cs, r) => .ok (Char.ofNat (16 * hi + lo) :: cs, r)
    | .error msg => .error msg := by
  have h1 : hexVal (hexDigitChar hi) = some hi := hexVal_hexDigitChar _ (by omega)
  have h2 : hexVal (hexDigitChar lo) = some lo := hexVal_hexDigitChar _ (by omega)
  have h0 : hexVal '0' = some 0 := rfl
  rw [parseStringBody.eq_def]
  simp [h0, h1, h2]
  intro hge _
  exact absurd hge (by omega)

theorem parseStringBody_escJ : ∀ (s rest : List Char),
    parseStringBody (escJ s ++ '"' :: rest) = .ok (s, rest) := by
  intro s
  induction s with
  | nil =>
    intro rest
    rw [escJ, List.nil_append, parseStringBody.eq_def]
    simp
  | cons c cs ih =>
    intro rest
    rw [escJ, List.append_assoc]
    by_cases h1 : c = '"'
    · subst h1
      simp only [escJChar, reduceIte, List.cons_append, List.nil_append]
      rw [parseStringBody.eq_def]
      simp [escDecode, ih]
    · by_cases h2 : c = '\\'
      · subst h2
        simp only [escJChar, reduceIte, List.cons_append, List.nil_append]
        rw [parseStringBody.eq_def]
        simp [escDecode, ih]
      · by_cases h3 : c = '\n'
        · subst h3
          simp only [escJChar, reduceIte, List.cons_append, List.nil_append]
          rw [parseStringBody.eq_def]
          simp [escDecode, ih]
        · by_cases h4 : c = '\t'
          · subst h4
            simp only [escJChar, reduceIte, List.cons_append, List.nil_append]
            rw [parseStringBody.eq_def]
            simp [escDecode, ih]
          · by_cases h5 : c = '\r'
            · subst h5
              simp only [escJChar, reduceIte, List.cons_append, List.nil_append]
              rw [parseStringBody.eq_def]
              simp [escDecode, ih]
            · by_cases h6 : c = Char.ofNat 8
              · subst h6
                simp only [escJChar, reduceIte, List.cons_append, List.nil_append]
                rw [parseStringBody.eq_def]
                simp [escDecode, ih]
              · by_cases h7 : c = Char.ofNat 12
                · subst h7
                  simp only [escJChar, reduceIte, List.cons_append, List.nil_append]
                  rw [parseStringBody.eq_def]
                  simp [escDecode, ih]
                · by_cases h8 : c.toNat < 32
                  · have hesc : escJChar c =
                        ['\\', 'u', '0', '0', hexDigitChar (c.toNat / 16),
                         hexDigitChar (c.toNat % 16)] := by
                      rw [escJChar]
                      simp [h1, h2, h3, h4, h5, h6, h7, h8]
                    rw [hesc]
                    simp only [List.cons_append, List.nil_append]
                    rw [parseStringBody_u00 _ _ (by omega) (by omega)]
                    have h16 : 16 * (c.toNat / 16) + c.toNat % 16 = c.toNat := by omega
                    rw [h16, Char.ofNat_toNat, ih]
                  · have hesc : escJChar c = [c] := by
                      rw [escJChar]
                      simp [h1, h2, h3, h4, h5, h6, h7, h8]
                    rw [hesc]
                    simp only [List.cons_append, List.nil_append]
                    rw [parseStringBody.eq_def]
                    simp [h1, h2, h8, ih]

theorem digitChar_digit : ∀ d < 10, isDigitChar (digitChar d) = true := by decide

theorem natDigitsGo_all_digits : ∀ (n : Nat) (acc : List Char),
    (∀ c ∈ acc, isDigitChar c = true) → ∀ c ∈ natDigitsGo n acc, isDigitChar c = true := by
  intro n
  induction n using Nat.strongRecOn with
  | _ n ih =>
    intro acc hacc c hc
    rw [natDigitsGo] at hc
    by_cases h : n < 10
    · rw [if_pos h] at hc
      rcases List.mem_cons.mp hc with rfl | hmem
      · exact digitChar_digit n h
      · exact hacc c hmem
    · rw [if_neg h] at hc
      refine ih (n / 10) (Nat.div_lt_self (by omega) (by omega)) _ ?_ c hc
      intro c' hc'
      rcases List.mem_cons.mp hc' with rfl | hmem
      · exact digitChar_digit _ (Nat.mod_lt _ (by omega))
      · exact hacc _ hmem

theorem natDigitsGo_ne_nil : ∀ (n : Nat) (acc : List Char), natDigitsGo n acc ≠ [] := by
  intro n
  induction n using Nat.strongRecOn with
  | _ n ih =>
    intro acc
    rw [natDigitsGo]
    by_cases h : n < 10
    · rw [if_pos h]
      exact List.cons_ne_nil _ _
    · rw [if_neg h]
      exact ih (n / 10) (Nat.div_lt_self (by omega) (by omega)) _

/-- Helper for reading back `natDigitsGo`: the value accumulated after the
digits of `n` have been consumed on top of accumulator value `a`. -/
def shiftVal (a n : Nat) : Nat :=
  if n < 10 then a * 10 + n else shiftVal a (n / 10) * 10 + n % 10
termination_by n
decreasing_by exact Nat.div_lt_self (by omega) (by omega)

theorem shiftVal_zero : ∀ n, shiftVal 0 n = n := by
  intro n
  induction n using Nat.strongRecOn with
  | _ n ih =>
    rw [shiftVal]
    by_cases h : n < 10
    · rw [if_pos h]
      omega
    · rw [if_neg h, ih (n / 10) (Nat.div_lt_self (by omega) (by omega))]
      omega

theorem digitChar_toNat : ∀ d < 10, (digitChar d).toNat = 48 + d := by decide

theorem foldl_natDigitsGo : ∀ (n a : Nat) (acc : List Char),
    (natDigitsGo n acc).foldl (fun x c => x * 10 + (c.toNat - 48)) a =
      acc.foldl (fun x c => x * 10 + (c.toNat - 48)) (shiftVal a n) := by
  intro n
  induction n using Nat.strongRecOn with
  | _ n ih =>
    intro a acc
    rw [natDigitsGo, shiftVal]
    by_cases h : n < 10
    · rw [if_pos h, if_pos h]
      simp only [List.foldl_cons]
      rw [digitChar_toNat n h]
      congr 1
      omega
    · rw [if_neg h, if_neg h, ih (n / 10) (Nat.div_lt_self (by omega) (by omega))]
      simp only [List.foldl_cons]
      congr 1
      rw [digitChar_toNat _ (Nat.mod_lt _ (by omega))]
      omega

theorem digitsVal_natDigits (n : Nat) : digitsVal (natDigits n) = n := by
  rw [digitsVal, natDigits, foldl_natDigitsGo]
  simp [shiftVal_zero]

/-- The input after a serialized value must not continue with a digit (it
never does inside serialized JSON: a separator or closer follows). -/
def noDigitHead : List Char → Prop
  | [] => True
  | c :: _ => isDigitChar c = false

theorem takeWhile_all_append {α : Type} (p : α → Bool) (xs ys : List α)
    (h : ∀ x ∈ xs, p x = true) :
    (xs ++ ys).takeWhile p = xs ++ ys.takeWhile p := by
  induction xs with
  | nil => rfl
  | cons x xs ih =>
    simp only [List.cons_append, List.takeWhile_cons,
      h x (List.mem_cons_self x xs), if_true]
    rw [ih (fun a ha => h a (List.mem_cons_of_mem x ha))]

theorem dropWhile_all_append {α : Type} (p : α → Bool) (xs ys : List α)
    (h : ∀ x ∈ xs, p x = true) :
    (xs ++ ys).dropWhile p = ys.dropWhile p := by
  induction xs with
  | nil => rfl
  | cons x xs ih =>
    simp only [List.cons_append, List.dropWhile_cons,
      h x (List.mem_cons_self x xs), if_true]
    exact ih (fun a ha => h a (List.mem_cons_of_mem x ha))

theorem parseNatChars_digits (n : Nat) (rest : List Char) (hrest : noDigitHead rest) :
    parseNatChars (natDigits n ++ rest) = .ok (n, rest) := by
  have hall : ∀ c ∈ natDigits n, isDigitChar c = true :=
    natDigitsGo_all_digits n [] (by simp)
  have hrt : rest.takeWhile isDigitChar = [] ∧ rest.dropWhile isDigitChar = rest := by
    cases rest with
    | nil => simp
    | cons r rs =>
      rw [noDigitHead] at hrest
      simp [List.takeWhile_cons, List.dropWhile_cons, hrest]
  rw [parseNatChars, takeWhile_all_append _ _ _ hall, dropWhile_all_append _ _ _ hall,
    hrt.1, hrt.2, List.append_nil]
  have hstep : (match natDigits n with
      | [] => (Except.error "invalid number" : Except String (Nat × List Char))
      | ds => Except.ok (digitsVal ds, rest)) = .ok (digitsVal (natDigits n), rest) := by
    cases hnd : natDigits n with
    | nil => exact absurd hnd (natDigitsGo_ne_nil n [])
    | cons d ds => rfl
  rw [hstep, digitsVal_natDigits]

theorem digit_facts (c : Char) (h : isDigitChar c = true) :
    isWsChar c = false ∧ c ≠ '\x7b' ∧ c ≠ '[' ∧ c ≠ '"' ∧ c ≠ 't' ∧ c ≠ 'f' ∧
      c ≠ 'n' ∧ c ≠ '-' ∧ c ≠ ']' ∧ c ≠ ',' ∧ c ≠ '\x7d' ∧ c ≠ ':' := by
  have hn : 48 ≤ c.toNat ∧ c.toNat ≤ 57 := by
    simpa [isDigitChar] using h
  refine ⟨?_, ?_, ?_, ?_, ?_, ?_, ?_, ?_, ?_, ?_, ?_, ?_⟩
  · simp only [isWsChar, Bool.or_eq_false_iff, decide_eq_false_iff_not]
    omega
  all_goals intro heq; subst heq; exact absurd hn (by decide)

theorem skipWs_cons_false (c : Char) (l : List Char) (h : isWsChar c = false) :
    skipWs (c :: l) = c :: l := by
  simp [skipWs, List.dropWhile_cons, h]

theorem skipWs_cons_true (c : Char) (l : List Char) (h : isWsChar c = true) :
    skipWs (c :: l) = skipWs l := by
  simp [skipWs, List.dropWhile_cons, h]

theorem parseValue_ws (fuel : Nat) (l : List Char) :
    parseValue fuel (' ' :: l) = parseValue fuel l := by
  cases fuel with
  | zero => rfl
  | succ f =>
    simp only [parseValue]
    rw [skipWs_cons_true _ _ (by decide)]

theorem parseItems_ws (fuel : Nat) (l : List Char) :
    parseItems fuel (' ' :: l) = parseItems fuel l := by
  cases fuel with
  | zero => rfl
  | succ f =>
    simp only [parseItems]
    rw [skipWs_cons_true _ _ (by decide)]

theorem parseMembers_ws (fuel : Nat) (l : List Char) :
    parseMembers fuel (' ' :: l) = parseMembers fuel l := by
  cases fuel with
  | zero => rfl
  | succ f =>
    simp only [parseMembers]
    rw [skipWs_cons_true _ _ (by decide)]

theorem parseValue_nat (m : Nat) (rest : List Char) (f : Nat) (hrest : noDigitHead rest) :
    parseValue (f + 1) (natDigits m ++ rest) = .ok (.jnum (m : Int), rest) := by
  have hall : ∀ c ∈ natDigits m, isDigitChar c = true :=
    natDigitsGo_all_digits m [] (by simp)
  cases hnd : natDigits m with
  | nil => exact absurd hnd (natDigitsGo_ne_nil m [])
  | cons c cs =>
    have hc : isDigitChar c = true := by
      refine hall c ?_
      rw [hnd]
      exact List.mem_cons_self _ _
    obtain ⟨hws, h1, h2, h3, h4, h5, h6, h7, -, -, -, -⟩ := digit_facts c hc
    rw [List.cons_append]
    rw [parseValue]
    rw [skipWs_cons_false _ _ hws]
    simp only [h1, h2, h3, h4, h5, h6, h7, if_false, reduceIte, if_neg, hc, if_true]
    rw [← List.cons_append, ← hnd, parseNatChars_digits m rest hrest]

theorem parseValue_negInt (m : Nat) (rest : List Char) (f : Nat) (hrest : noDigitHead rest) :
    parseValue (f + 1) ('-' :: (natDigits m ++ rest)) = .ok (.jnum (-(m : Int)), rest) := by
  have hstep : parseValue (f + 1) ('-' :: (natDigits m ++ rest)) =
      (match parseNatChars (natDigits m ++ rest) with
       | .ok (n, r2) => (.ok (.jnum (-(n : Int)), r2) : Except String (JValue × List Char))
       | .error e => .error e) := rfl
  rw [hstep, parseNatChars_digits m rest hrest]

theorem parseValue_int (n : Int) (rest : List Char) (f : Nat) (hrest : noDigitHead rest) :
    parseValue (f + 1) (intChars n ++ rest) = .ok (.jnum n, rest) := by
  rw [intChars]
  by_cases h : n < 0
  · rw [if_pos h, List.cons_append, parseValue_negInt _ _ _ hrest]
    have heq : -((n.natAbs : Nat) : Int) = n := by omega
    rw [heq]
  · rw [if_neg h, parseValue_nat _ _ _ hrest]
    have heq : ((n.natAbs : Nat) : Int) = n := by omega
    rw [heq]

theorem dumps_head (v : JValue) : ∃ c l, json_dumps_val v = c :: l ∧ isWsChar c = false ∧
    c ≠ ']' ∧ c ≠ ',' ∧ c ≠ '\x7d' := by
  cases v with
  | jstr s => exact ⟨'"', _, rfl, by decide, by decide, by decide, by decide⟩
  | jnum n =>
    show ∃ c l, intChars n = c :: l ∧ _
    rw [intChars]
    by_cases h : n < 0
    · rw [if_pos h]
      exact ⟨'-', _, rfl, by decide, by decide, by decide, by decide⟩
    · rw [if_neg h]
      cases hnd : natDigits n.natAbs with
      | nil => exact absurd hnd (natDigitsGo_ne_nil _ _)
      | cons c cs =>
        have hc : isDigitChar c = true := by
          refine natDigitsGo_all_digits n.natAbs [] (by simp) c ?_
          show c ∈ natDigits n.natAbs
          rw [hnd]
          exact List.mem_cons_self _ _
        obtain ⟨hws, -, -, -, -, -, -, -, h9, h10, h11, -⟩ := digit_facts c hc
        exact ⟨c, cs, rfl, hws, h9, h10, h11⟩
  | jbool b =>
    cases b with
    | true => exact ⟨'t', _, rfl, by decide, by decide, by decide, by decide⟩
    | false => exact ⟨'f', _, rfl, by decide, by decide, by decide, by decide⟩
  | jnull => exact ⟨'n', _, rfl, by decide, by decide, by decide, by decide⟩
  | jarr xs => exact ⟨'[', _, rfl, by decide, by decide, by decide, by decide⟩
  | jobj fs => exact ⟨'\x7b', _, rfl, by decide, by decide, by decide, by decide⟩

mutual

theorem rt_val : ∀ (v : JValue) (rest : List Char) (fuel : Nat), nvFuel v ≤ fuel →
    noDigitHead rest → parseValue fuel (json_dumps_val v ++ rest) = .ok (v, rest)
  | .jstr s, rest, fuel, hfuel, _ => by
    simp only [nvFuel] at hfuel
    obtain ⟨f, rfl⟩ : ∃ f, fuel = f + 1 := ⟨fuel - 1, by omega⟩
    show parseValue (f + 1) (('"' :: (escJ s.data ++ ['"'])) ++ rest) = _
    rw [List.cons_append, List.append_assoc, List.singleton_append]
    have hstep : parseValue (f + 1) ('"' :: (escJ s.data ++ '"' :: rest)) =
        (match parseStringBody (escJ s.data ++ '"' :: rest) with
         | .ok (cs, r2) => (.ok (.jstr (String.mk cs), r2) : Except String (JValue × List Char))
         | .error e => .error e) := rfl
    rw [hstep, parseStringBody_escJ]
  | .jnum n, rest, fuel, hfuel, hrest => by
    simp only [nvFuel] at hfuel
    obtain ⟨f, rfl⟩ : ∃ f, fuel = f + 1 := ⟨fuel - 1, by omega⟩
    exact parseValue_int n rest f hrest
  | .jbool true, rest, fuel, hfuel, _ => by
    simp only [nvFuel] at hfuel
    obtain ⟨f, rfl⟩ : ∃ f, fuel = f + 1 := ⟨fuel - 1, by omega⟩
    rfl
  | .jbool false, rest, fuel, hfuel, _ => by
    simp only [nvFuel] at hfuel
    obtain ⟨f, rfl⟩ : ∃ f, fuel = f + 1 := ⟨fuel - 1, by omega⟩
    rfl
  | .jnull, rest, fuel, hfuel, _ => by
    simp only [nvFuel] at hfuel
    obtain ⟨f, rfl⟩ : ∃ f, fuel = f + 1 := ⟨fuel - 1, by omega⟩
    rfl
  | .jarr xs, rest, fuel, hfuel, _ => by
    simp only [nvFuel] at hfuel
    obtain ⟨f, rfl⟩ : ∃ f, fuel = f + 1 := ⟨fuel - 1, by omega⟩
    show parseValue (f + 1) (('[' :: (dumpsArr xs ++ [']'])) ++ rest) = _
    rw [List.cons_append, List.append_assoc, List.singleton_append]
    have hstep : parseValue (f + 1) ('[' :: (dumpsArr xs ++ ']' :: rest)) =
        (match parseItems f (dumpsArr xs ++ ']' :: rest) with
         | .ok (xs2, r2) => (.ok (.jarr xs2, r2) : Except String (JValue × List Char))
         | .error e => .error e) := rfl
    rw [hstep, rt_arr xs rest f (by omega)]
  | .jobj fs, rest, fuel, hfuel, _ => by
    simp only [nvFuel] at hfuel
    obtain ⟨f, rfl⟩ : ∃ f, fuel = f + 1 := ⟨fuel - 1, by omega⟩
    show parseValue (f + 1) (('\x7b' :: (dumpsObj fs ++ ['\x7d'])) ++ rest) = _
    rw [List.cons_append, List.append_assoc, List.singleton_append]
    have hstep : parseValue (f + 1) ('\x7b' :: (dumpsObj fs ++ '\x7d' :: rest)) =
        (match parseMembers f (dumpsObj fs ++ '\x7d' :: rest) with
         | .ok (fs2, r2) => (.ok (.jobj fs2, r2) : Except String (JValue × List Char))
         | .error e => .error e) := rfl
    rw [hstep, rt_obj fs rest f (by omega)]

theorem rt_arr : ∀ (xs : JArr) (rest : List Char) (fuel : Nat), naFuel xs ≤ fuel →
    parseItems fuel (dumpsArr xs ++ ']' :: rest) = .ok (xs, rest)
  | .nil, rest, fuel, hfuel => by
    simp only [naFuel] at hfuel
    obtain ⟨f, rfl⟩ : ∃ f, fuel = f + 1 := ⟨fuel - 1, by omega⟩
    show parseItems (f + 1) (']' :: rest) = _
    rfl
  | .cons x .nil, rest, fuel, hfuel => by
    simp only [naFuel, Nat.max_le] at hfuel
    obtain ⟨f, rfl⟩ : ∃ f, fuel = f + 1 := ⟨fuel - 1, by omega⟩
    show parseItems (f + 1) (json_dumps_val x ++ ']' :: rest) = _
    obtain ⟨c, l, hd, hws, hne, -, -⟩ := dumps_head x
    rw [hd, List.cons_append, parseItems, skipWs_cons_false _ _ hws]
    change (if c = ']' then _ else _) = _
    rw [if_neg hne, ← List.cons_append, ← hd,
      rt_val x (']' :: rest) f (by omega) (by rw [noDigitHead]; decide)]
    rfl
  | .cons x (.cons y tl), rest, fuel, hfuel => by
    rw [naFuel] at hfuel
    obtain ⟨f, rfl⟩ : ∃ f, fuel = f + 1 := ⟨fuel - 1, by omega⟩
    show parseItems (f + 1)
      ((json_dumps_val x ++ ',' :: ' ' :: dumpsArr (JArr.cons y tl)) ++ ']' :: rest) = _
    rw [List.append_assoc, List.cons_append, List.cons_append]
    obtain ⟨c, l, hd, hws, hne, -, -⟩ := dumps_head x
    rw [hd, List.cons_append, parseItems, skipWs_cons_false _ _ hws]
    change (if c = ']' then _ else _) = _
    rw [if_neg hne, ← List.cons_append, ← hd,
      rt_val x (',' :: ' ' :: (dumpsArr (JArr.cons y tl) ++ ']' :: rest)) f (by omega)
        (by rw [noDigitHead]; decide)]
    change (match parseItems f (' ' :: (dumpsArr (JArr.cons y tl) ++ ']' :: rest)) with
      | Except.ok (JArr.nil, _) => (Except.error "trailing comma" :
          Except String (JArr × List Char))
      | Except.ok (xs, r4) => Except.ok (JArr.cons x xs, r4)
      | Except.error e => Except.error e) = _
    rw [parseItems_ws, rt_arr (JArr.cons y tl) rest f (by omega)]

theorem rt_obj : ∀ (fs : JObj) (rest : List Char) (fuel : Nat), noFuel fs ≤ fuel →
    parseMembers fuel (dumpsObj fs ++ '\x7d' :: rest) = .ok (fs, rest)
  | .nil, rest, fuel, hfuel => by
    simp only [noFuel] at hfuel
    obtain ⟨f, rfl⟩ : ∃ f, fuel = f + 1 := ⟨fuel - 1, by omega⟩
    show parseMembers (f + 1) ('\x7d' :: rest) = _
    rfl
  | .cons k v .nil, rest, fuel, hfuel => by
    simp only [noFuel, Nat.max_le] at hfuel
    obtain ⟨f, rfl⟩ : ∃ f, fuel = f + 1 := ⟨fuel - 1, by omega⟩
    show parseMembers (f + 1)
      ((('"' :: (escJ k.data ++ ['"'])) ++ ':' :: ' ' :: json_dumps_val v) ++ '\x7d' :: rest) = _
    rw [List.cons_append, List.cons_append, List.append_assoc, List.append_assoc,
      List.singleton_append]
    rw [parseMembers, skipWs_cons_false _ _ (by decide)]
    change (match parseStringBody
        (escJ k.data ++ '"' :: (':' :: ' ' :: (json_dumps_val v ++ '\x7d' :: rest))) with
      | Except.error e => (Except.error e : Except String (JObj × List Char))
      | Except.ok (kcs, r1) => _) = _
    rw [parseStringBody_escJ]
    change (match parseValue f (' ' :: (json_dumps_val v ++ '\x7d' :: rest)) with
      | Except.error e => (Except.error e : Except String (JObj × List Char))
      | Except.ok (v2, r3) => _) = _
    rw [parseValue_ws, rt_val v ('\x7d' :: rest) f (by omega) (by rw [noDigitHead]; decide)]
    rfl
  | .cons k v (.cons k2 v2 tl), rest, fuel, hfuel => by
    rw [noFuel] at hfuel
    obtain ⟨f, rfl⟩ : ∃ f, fuel = f + 1 := ⟨fuel - 1, by omega⟩
    show parseMembers (f + 1)
      ((('"' :: (escJ k.data ++ ['"'])) ++ ':' :: ' ' :: json_dumps_val v ++
        ',' :: ' ' :: dumpsObj (JObj.cons k2 v2 tl)) ++ '\x7d' :: rest) = _
    simp only [List.cons_append, List.append_assoc, List.nil_append]
    rw [parseMembers, skipWs_cons_false _ _ (by decide)]
    change (match parseStringBody (escJ k.data ++ '"' :: (':' :: ' ' ::
        (json_dumps_val v ++ ',' :: ' ' :: (dumpsObj (JObj.cons k2 v2 tl) ++
          '\x7d' :: rest)))) with
      | Except.error e => (Except.error e : Except String (JObj × List Char))
      | Except.ok (kcs, r1) => _) = _
    rw [parseStringBody_escJ]
    change (match parseValue f (' ' :: (json_dumps_val v ++ ',' :: ' ' ::
        (dumpsObj (JObj.cons k2 v2 tl) ++ '\x7d' :: rest))) with
      | Except.error e => (Except.error e : Except String (JObj × List Char))
      | Except.ok (v2, r3) => _) = _
    rw [parseValue_ws,
      rt_val v (',' :: ' ' :: (dumpsObj (JObj.cons k2 v2 tl) ++ '\x7d' :: rest)) f
        (by omega) (by rw [noDigitHead]; decide)]
    change (match parseMembers f (' ' :: (dumpsObj (JObj.cons k2 v2 tl) ++
        '\x7d' :: rest)) with
      | Except.ok (JObj.nil, _) => (Except.error "trailing comma" :
          Except String (JObj × List Char))
      | Except.ok (fs, r5) => Except.ok (JObj.cons (String.mk k.data) v fs, r5)
      | Except.error e => Except.error e) = _
    rw [parseMembers_ws, rt_obj (JObj.cons k2 v2 tl) rest f (by omega)]

end

mutual

theorem nvFuel_le : ∀ v : JValue, nvFuel v ≤ (json_dumps_val v).length + 1
  | .jstr s => by
    simp only [nvFuel]
    omega
  | .jnum n => by
    simp only [nvFuel]
    omega
  | .jbool b => by
    cases b <;> simp only [nvFuel] <;> omega
  | .jnull => by
    simp only [nvFuel]
    omega
  | .jarr xs => by
    have h := naFuel_le xs
    simp only [nvFuel, json_dumps_val, List.length_cons, List.length_append,
      List.length_nil]
    omega
  | .jobj fs => by
    have h := noFuel_le fs
    simp only [nvFuel, json_dumps_val, List.length_cons, List.length_append,
      List.length_nil]
    omega

theorem naFuel_le : ∀ xs : JArr, naFuel xs ≤ (dumpsArr xs).length + 2
  | .nil => by
    simp only [naFuel, dumpsArr]
    omega
  | .cons x .nil => by
    have h := nvFuel_le x
    simp only [naFuel, dumpsArr]
    omega
  | .cons x (.cons y tl) => by
    have h1 := nvFuel_le x
    have h2 := naFuel_le (JArr.cons y tl)
    simp only [naFuel] at h2 ⊢
    simp only [dumpsArr, List.length_append, List.length_cons]
    omega

theorem noFuel_le : ∀ fs : JObj, noFuel fs ≤ (dumpsObj fs).length + 2
  | .nil => by
    simp only [noFuel, dumpsObj]
    omega
  | .cons k v .nil => by
    have h := nvFuel_le v
    simp only [noFuel, dumpsObj, List.length_append, List.length_cons]
    omega
  | .cons k v (.cons k2 v2 tl) => by
    have h1 := nvFuel_le v
    have h2 := noFuel_le (JObj.cons k2 v2 tl)
    simp only [noFuel] at h2 ⊢
    simp only [dumpsObj, List.length_append, List.length_cons]
    omega

end

theorem json_loads_chars_dumps (v : JValue) : json_loads_chars (json_dumps_val v) = .ok v := by
  rw [json_loads_chars]
  have h := rt_val v [] ((json_dumps_val v).length + 1) (nvFuel_le v)
    (by rw [noDigitHead]; trivial)
  rw [List.append_nil] at h
  rw [h]
  rfl

/-- `json.loads` inverts `json.dumps` on every value of the model. -/
theorem json_dumps_roundtrip (v : JValue) : json_loads (json_dumps v) = .ok v :=
  json_loads_chars_dumps v

theorem json_dumps_val_ne_nil (v : JValue) : json_dumps_val v ≠ [] := by
  obtain ⟨c, l, hd, -⟩ := dumps_head v
  rw [hd]
  exact List.cons_ne_nil _ _

theorem json_dumps_ne_empty (v : JValue) : json_dumps v ≠ "" := by
  rw [json_dumps]
  intro h
  exact json_dumps_val_ne_nil v (congrArg String.data h)

/-- A chat message as built on lines 56-59 of `src/app.py`. -/
structure ChatMsg where
  role : String
  content : String

/-- Line 57 of `src/app.py`: the fixed system-role content. -/
def systemPrompt : String :=
  "You are a helpful assistant specializing in comparing Blue Cross Blue Shield insurance plans. Provide concise, accurate comparisons based on the plans given."

/-- Lines 56-59 of `src/app.py`: the two-message conversation. -/
def jambaMessages (store : List (String × String)) (question : String)
    (plan_names : List String) : List ChatMsg :=
  [ChatMsg.mk "system" systemPrompt,
   ChatMsg.mk "user" (jambaPrompt store question plan_names)]

/-- Lines 43-69 of `src/app.py`: `run_jamba_query`.  The remote call
`client.chat.completions.create` is the external collaborator `api`; it
returns the response's `dict()` form (a dict, hence a `JObj`) or fails
(network, auth, service error).  The fixed model name, temperature 0.3 and
max_tokens 5000 are configuration of that collaborator.  The source has no
try/except here, so an `api` failure propagates out unchanged; on success the
return value is `json.dumps(response.dict())`. -/
def run_jamba_query (store : List (String × String)) (question : String)
    (plan_names : List String) (api : List ChatMsg → Except String JObj) :
    Except String String :=
  match api (jambaMessages store question plan_names) with
  | .error e => .error e
  | .ok respDict => .ok (json_dumps (.jobj respDict))

/-- What the results area shows for one submission. -/
inductive DisplayState where
  | noResponse
  | parseError (raw : String)
  | answer (escaped : String) (parsed : JValue)

/-- The texts written by each display state: line 160's notice; the lines
157-158 parse-failure notice plus `<pre>` wrapped verbatim raw text; or lines
133-150's header plus the escaped message. -/
def displayLines : DisplayState → List String
  | .noResponse => ["No response from Jamba-1.5-Large."]
  | .parseError raw =>
    ["Failed to parse JSON response. Raw response:", "<pre>" ++ raw ++ "</pre>"]
  | .answer esc _ => ["Model Response:", esc]

/-- Lines 117-158 of `src/app.py`: the try/except block.
`json.JSONDecodeError` is the only exception caught (yielding the parse-error
display that embeds the raw string verbatim); an exception raised by the
extraction chain, or by calling `.replace` on a non-string message
(`AttributeError`), propagates as `.error`. -/
def render_response (raw : String) : Except String DisplayState :=
  match json_loads raw with
  | .error _ => .ok (.parseError raw)
  | .ok parsed =>
    match parsed_message parsed with
    | .error e => .error e
    | .ok (.jstr m) => .ok (.answer (String.mk (escaped_message m.data)) parsed)
    | .ok _ => .error "AttributeError"

/-- Lines 116-160 of `src/app.py`: `if jamba_response:` (falsy only for the
empty string) selects the try block or the "no response" notice. -/
def jamba_display (raw : String) : Except String DisplayState :=
  if raw = "" then .ok .noResponse else render_response raw

/-- Lines 111-161 of `src/app.py`: the Compare Plans button handler.
`if st.button('Compare Plans') and len(selected_plans) > 0:` guards the whole
pipeline; `.ok none` means nothing ran.  A failure of the remote call
propagates out of the handler uncaught. -/
def compare_submit (pressed : Bool) (selected : List String) (question : String)
    (store : List (String × String)) (api : List ChatMsg → Except String JObj) :
    Except String (Option DisplayState) :=
  if pressed && decide (0 < selected.length) then
    match run_jamba_query store question selected api with
    | .error e => .error e
    | .ok raw =>
      match jamba_display raw with
      | .error e => .error e
      | .ok st => .ok (some st)
  else
    .ok none

/-- C9: with an empty selected-plan list, the Compare Plans button handler
runs nothing at all — no prompt is built, the remote call is never made (the
result does not depend on `api`), and nothing is rendered — whether or not
the button was pressed. -/
theorem empty_selection_no_run (pressed : Bool) (question : String)
    (store : List (String × String)) (api : List ChatMsg → Except String JObj) :
    compare_submit pressed [] question store api = .ok none := by
  rw [compare_submit]
  simp

theorem render_response_shape (raw : String) (parsed : JValue)
    (h : json_loads raw = .ok parsed) :
    render_response raw =
      (match parsed_message parsed with
       | .error e => .error e
       | .ok (.jstr m) => .ok (.answer (String.mk (escaped_message m.data)) parsed)
       | .ok _ => .error "AttributeError") := by
  rw [render_response, h]

/-- C4 counterexample: a failing remote call is not caught at the call site
and is not surfaced as the "no response" notice — `run_jamba_query` has no
try/except, so the error propagates out of the whole submission handler. -/
theorem api_failure_not_caught_cex :
    compare_submit true ["HMO Blue Saver"] "q" [("HMO Blue Saver", "text")]
      (fun _ => .error "APIError") = .error "APIError" ∧
    (Except.error "APIError" : Except String (Option DisplayState)) ≠
      .ok (some .noResponse) := by
  exact ⟨rfl, by simp⟩

/-- C4 amended: a remote-call failure propagates out of `run_jamba_query` and
out of the Compare Plans handler unchanged (uncaught); no user-visible notice
is produced by the app's own code and the call is made exactly once (the
handler performs a single `api` invocation by construction), with no retry.
The "No response from Jamba-1.5-Large." branch is reachable only when the
returned string is empty, which never happens (see
`run_jamba_query_valid_json`). -/
theorem api_failure_propagates (question : String) (names : List String)
    (store : List (String × String)) (err : String) (hne : names ≠ []) :
    compare_submit true names question store (fun _ => .error err) = .error err := by
  have hlen : 0 < names.length := List.length_pos.mpr hne
  rw [compare_submit, if_pos (by simp [hlen])]
  rfl

theorem api_failure_propagates_witness :
    compare_submit true ["A"] "q" [("A", "t")] (fun _ => .error "ConnectionError") =
      .error "ConnectionError" :=
  api_failure_propagates "q" ["A"] [("A", "t")] "ConnectionError" (by decide)

/-- C10: whenever `run_jamba_query` returns normally, its return value is
`json.dumps` of the response's dict form — a non-empty string that parses
back to exactly that dict — so the "No response from Jamba-1.5-Large." branch
and the JSON-parse-error raw-fallback branch of the renderer are both
unreachable for it. -/
theorem run_jamba_query_valid_json (store : List (String × String)) (question : String)
    (names : List String) (api : List ChatMsg → Except String JObj) (raw : String)
    (h : run_jamba_query store question names api = .ok raw) :
    (∃ fields, api (jambaMessages store question names) = .ok fields ∧
      raw = json_dumps (.jobj fields) ∧ json_loads raw = .ok (.jobj fields)) ∧
    raw ≠ "" ∧
    jamba_display raw ≠ .ok .noResponse ∧
    (∀ r, jamba_display raw ≠ .ok (.parseError r)) := by
  rw [run_jamba_query] at h
  cases hapi : api (jambaMessages store question names) with
  | error e =>
    rw [hapi] at h
    exact absurd h (by simp)
  | ok fields =>
    rw [hapi] at h
    have hraw : raw = json_dumps (.jobj fields) := by
      simp only [Except.ok.injEq] at h
      exact h.symm
    have hloads : json_loads raw = .ok (.jobj fields) := by
      rw [hraw]
      exact json_dumps_roundtrip _
    have hne : raw ≠ "" := by
      rw [hraw]
      exact json_dumps_ne_empty _
    have hdisp : jamba_display raw = render_response raw := by
      rw [jamba_display, if_neg hne]
    refine ⟨⟨fields, rfl, hraw, hloads⟩, hne, ?_, ?_⟩
    · rw [hdisp, render_response_shape raw _ hloads]
      cases parsed_message (JValue.jobj fields) with
      | error e => simp
      | ok m => cases m <;> simp
    · intro r
      rw [hdisp, render_response_shape raw _ hloads]
      cases parsed_message (JValue.jobj fields) with
      | error e => simp
      | ok m => cases m <;> simp

/-- A concrete successful remote call used to witness
`run_jamba_query_valid_json`. -/
def apiWitness : List ChatMsg → Except String JObj := fun _ =>
  .ok (JObj.cons "choices"
    (JValue.jarr (JArr.cons
      (JValue.jobj (JObj.cons "messages" (JValue.jstr "ok") JObj.nil)) JArr.nil))
    JObj.nil)

theorem run_jamba_query_valid_json_witness :
    json_dumps (JValue.jobj (JObj.cons "choices"
      (JValue.jarr (JArr.cons
        (JValue.jobj (JObj.cons "messages" (JValue.jstr "ok") JObj.nil)) JArr.nil))
      JObj.nil)) ≠ "" ∧
    ∀ r, jamba_display (json_dumps (JValue.jobj (JObj.cons "choices"
      (JValue.jarr (JArr.cons
        (JValue.jobj (JObj.cons "messages" (JValue.jstr "ok") JObj.nil)) JArr.nil))
      JObj.nil))) ≠ .ok (.parseError r) := by
  have h := run_jamba_query_valid_json [("A", "t")] "q" ["A"] apiWitness
    (json_dumps (JValue.jobj (JObj.cons "choices"
      (JValue.jarr (JArr.cons
        (JValue.jobj (JObj.cons "messages" (JValue.jstr "ok") JObj.nil)) JArr.nil))
      JObj.nil))) rfl
  exact ⟨h.2.1, h.2.2.2⟩

/-- C7: for every response string the parser rejects, the renderer catches
the decode error and shows the explicit parse-error notice followed by the
raw unparsed string embedded verbatim (inside a `<pre>` wrapper), instead of
raising. -/
theorem malformed_raw_fallback (raw : String) (e : String)
    (h : json_loads raw = .error e) :
    render_response raw = .ok (.parseError raw) ∧
    displayLines (.parseError raw) =
      ["Failed to parse JSON response. Raw response:", "<pre>" ++ raw ++ "</pre>"] := by
  constructor
  · rw [render_response, h]
  · rfl

theorem malformed_raw_fallback_witness :
    json_loads "not json" = .error "expecting value" ∧
    render_response "not json" = .ok (.parseError "not json") :=
  ⟨rfl, (malformed_raw_fallback "not json" "expecting value" rfl).1⟩

/-- The round-trip scenario's raw response string
`\x7b"choices":[\x7b"messages":"Plan A has a $500 deductible."\x7d]\x7d`. -/
def rawC5 : String :=
  "\x7b\"choices\":[\x7b\"messages\":\"Plan A has a $500 deductible.\"\x7d]\x7d"

/-- The unique JSON parse of `rawC5`. -/
def parsedC5 : JValue :=
  JValue.jobj (JObj.cons "choices"
    (JValue.jarr (JArr.cons (JValue.jobj (JObj.cons "messages"
      (JValue.jstr "Plan A has a $500 deductible.") JObj.nil)) JArr.nil)) JObj.nil)

/-- C5: the raw string parses to `parsedC5`; extraction selects exactly the
value stored under the `messages` key of the first choice (not any fallback:
the extracted text differs from the `str(choice)` fallback form); and the
rendered answer is exactly `Plan A has a \$500 deductible\.`. -/
theorem round_trip_scenario :
    json_loads rawC5 = .ok parsedC5 ∧
    lookupKey (JObj.cons "messages" (JValue.jstr "Plan A has a $500 deductible.")
      JObj.nil) "messages" = some (JValue.jstr "Plan A has a $500 deductible.") ∧
    parsed_message parsedC5 = .ok (JValue.jstr "Plan A has a $500 deductible.") ∧
    render_response rawC5 =
      .ok (.answer "Plan A has a \\$500 deductible\\." parsedC5) ∧
    JValue.jstr "Plan A has a $500 deductible." ≠
      JValue.jstr (pyStr (JValue.jobj (JObj.cons "messages"
        (JValue.jstr "Plan A has a $500 deductible.") JObj.nil))) := by
  refine ⟨rfl, rfl, rfl, rfl, ?_⟩
  intro hcontra
  have hs : "Plan A has a $500 deductible." =
      pyStr (JValue.jobj (JObj.cons "messages"
        (JValue.jstr "Plan A has a $500 deductible.") JObj.nil)) := by
    injection hcontra
  exact absurd hs (by decide)

/-- Shape condition under which the extraction chain of lines 122-131 cannot
raise: the `choices` member, when present, is an array, and when that array
is non-empty its first element is an object. -/
def choicesOk : Option JValue → Bool
  | none => true
  | some (JValue.jarr JArr.nil) => true
  | some (JValue.jarr (JArr.cons (JValue.jobj _) _)) => true
  | _ => false

/-- Written from the amended claim sentence: if a non-empty `choices`
sequence exists take the first entry; use its `messages` field, else the
misspelled `mesages` field, else the `str` form of the entry; when `choices`
is absent or empty, the `str` form of the whole parsed response. -/
def extract_spec (fields : JObj) : JValue :=
  match lookupKey fields "choices" with
  | some (JValue.jarr (JArr.cons choice _)) =>
    (match choice with
     | JValue.jobj cf =>
       (match lookupKey cf "messages" with
        | some m => m
        | none =>
          match lookupKey cf "mesages" with
          | some m => m
          | none => JValue.jstr (pyStr choice))
     | _ => JValue.jstr (pyStr choice))
  | _ => JValue.jstr (pyStr (JValue.jobj fields))

/-- C3 counterexample: the raw string `5` parses successfully (to the number
5), but the extraction chain then raises `TypeError` at
`'choices' in parsed_response` (line 122), so "never raises" fails for a
successfully parsed response. -/
theorem parsed_message_raises_cex :
    json_loads "5" = .ok (JValue.jnum 5) ∧
    parsed_message (JValue.jnum 5) = .error "TypeError" :=
  ⟨rfl, rfl⟩

/-- C3 amended: for every successfully parsed response that is an object
whose `choices` member, when present, is an array whose first element (when
non-empty) is an object, the extraction follows the chain — non-empty
`choices` takes the first entry and uses its `messages` field, else the
misspelled `mesages` field, else the `str` form of the entry; absent or
empty `choices` falls back to the `str` form of the whole response — and
never raises. -/
theorem parsed_message_chain (fields : JObj)
    (h : choicesOk (lookupKey fields "choices") = true) :
    parsed_message (.jobj fields) = .ok (extract_spec fields) := by
  cases hlk : lookupKey fields "choices" with
  | none =>
    simp [parsed_message, pyContains, hlk, extract_spec,
      Except.instMonad, Except.bind, Except.pure]
  | some v =>
    rw [hlk] at h
    cases v with
    | jarr xs =>
      cases xs with
      | nil =>
        simp [parsed_message, pyContains, pySubscript, pyLen, hlk, extract_spec, arrLen,
          Except.instMonad, Except.bind, Except.pure]
      | cons c tl =>
        cases c with
        | jobj cf =>
          cases hm : lookupKey cf "messages" with
          | some m =>
            simp [parsed_message, pyContains, pySubscript, pyLen, pyIndexZero,
              hlk, hm, extract_spec, arrLen, Except.instMonad, Except.bind, Except.pure]
          | none =>
            cases hm2 : lookupKey cf "mesages" with
            | some m =>
              simp [parsed_message, pyContains, pySubscript, pyLen, pyIndexZero,
                hlk, hm, hm2, extract_spec, arrLen,
                Except.instMonad, Except.bind, Except.pure]
            | none =>
              simp [parsed_message, pyContains, pySubscript, pyLen, pyIndexZero,
                hlk, hm, hm2, extract_spec, arrLen,
                Except.instMonad, Except.bind, Except.pure]
        | jstr s => simp [choicesOk] at h
        | jnum n => simp [choicesOk] at h
        | jbool b => simp [choicesOk] at h
        | jnull => simp [choicesOk] at h
        | jarr ys => simp [choicesOk] at h
    | jstr s => simp [choicesOk] at h
    | jnum n => simp [choicesOk] at h
    | jbool b => simp [choicesOk] at h
    | jnull => simp [choicesOk] at h
    | jobj gs => simp [choicesOk] at h

theorem parsed_message_chain_witness :
    parsed_message (JValue.jobj (JObj.cons "choices"
      (JValue.jarr (JArr.cons (JValue.jobj
        (JObj.cons "mesages" (JValue.jstr "test_value") JObj.nil)) JArr.nil))
      JObj.nil)) = .ok (JValue.jstr "test_value") ∧
    parsed_message (JValue.jobj (JObj.cons "choices" (JValue.jarr JArr.nil)
      JObj.nil)) = .ok (JValue.jstr "\x7b'choices': []\x7d") :=
  ⟨parsed_message_chain (JObj.cons "choices"
      (JValue.jarr (JArr.cons (JValue.jobj
        (JObj.cons "mesages" (JValue.jstr "test_value") JObj.nil)) JArr.nil))
      JObj.nil) rfl,
   parsed_message_chain (JObj.cons "choices" (JValue.jarr JArr.nil) JObj.nil) rfl⟩
